import Mathlib

/-!
Verification of the subscriber-side protocol core of a pub/sub client
library: the Dispatcher (ack / modack / nack batching, splitting,
deduplication and retry hand-off) and the Leaser (lease bookkeeping and the
periodic lease-maintenance tick).

The repository snapshot contains the unit-test suite for these two
components (tests/unit/pubsub_v1/subscriber/test_dispatcher.py and
test_leaser.py) but not the component sources themselves, so the
definitions below are modelled from the specification (spec.md §4.4, §4.5,
§6, §7), with every point the specification leaves open fixed by the
behaviour the repository's own tests demand.  Each definition's doc
comment records its provenance.

Ack ids are server-minted opaque tokens; the model is polymorphic in the
ack-id type `α` (tests instantiate it with small naturals standing for the
distinct 176-byte ack-id strings, and with string literals where a test
uses them).  Result futures are identified by numeric handles; resolving a
future is recorded as an explicit effect, not a mutation.
-/

set_option autoImplicit false

namespace PubSub

variable {α : Type} {β : Type}

/-! ### Generic list machinery: chunking a request list into unary calls -/

/-- Take `k` successive chunks of `n` elements from `l` (the final chunks are
shorter or empty once `l` is exhausted).  This mirrors the dispatcher's split
loop, which computes `total_chunks = ceil(len(items) / batch)` and then
repeatedly slices `batch` items off an iterator. -/
def chunksOfAux (n : Nat) : Nat → List α → List (List α)
  | 0, _ => []
  | k + 1, l => l.take n :: chunksOfAux n k (l.drop n)

/-- Split `l` into `ceil(l.length / n)` chunks of at most `n` elements, as the
dispatcher does before issuing unary ack / modack calls. -/
def chunksOf (n : Nat) (l : List α) : List (List α) :=
  chunksOfAux n ((l.length + n - 1) / n) l

/-- Lengths of the chunks produced by `chunksOfAux n k` from a list of length
`m`, computed purely arithmetically. -/
def chunkLensAux (n : Nat) : Nat → Nat → List Nat
  | 0, _ => []
  | k + 1, m => min n m :: chunkLensAux n k (m - n)

/-- Lengths of the chunks of `chunksOf n` on a list of length `m`. -/
def chunkLens (n m : Nat) : List Nat :=
  chunkLensAux n ((m + n - 1) / n) m

/-! ### Generic list machinery: first-occurrence deduplication -/

/-- Declarative first-occurrence filter: keep each element whose key has not
occurred earlier in the list.  This is the specification-side reading of
"if the same ack id appears multiple times in a bucket, only the first is
processed". -/
def keepFirst (key : β → α) [DecidableEq α] : List β → List β
  | [] => []
  | x :: xs => x :: keepFirst key (xs.filter fun y => decide (key y ≠ key x))
termination_by l => l.length
decreasing_by
  simp only [List.length_cons]
  exact Nat.lt_succ_of_le (List.length_filter_le _ _)

/-- Operational deduplication with a seen-set accumulator, mirroring the
dispatcher tick's per-bucket loop (`if item.ack_id not in seen: seen.add;
bucket.append(item) else: handle duplicate`).  Returns the kept items and the
duplicate items, each in arrival order. -/
def dedupScan (key : β → α) [DecidableEq α] (seen : List α) :
    List β → List β × List β
  | [] => ([], [])
  | x :: xs =>
    if key x ∈ seen then
      let p := dedupScan key seen xs
      (p.1, x :: p.2)
    else
      let p := dedupScan key (key x :: seen) xs
      (x :: p.1, p.2)

/-! ### Request work items (modelled from the data-model table in spec §3;
field lists follow the shapes the tests construct) -/

/-- Ack work item: `AckRequest(ack_id, byte_size, time_to_ack, ordering_key,
future)`. -/
structure AckRequest (α : Type) where
  ack_id : α
  byte_size : Nat
  time_to_ack : Option Nat
  ordering_key : String
  future : Option Nat
deriving DecidableEq

/-- Modack work item: `ModAckRequest(ack_id, seconds, future)`. -/
structure ModAckRequest (α : Type) where
  ack_id : α
  seconds : Nat
  future : Option Nat
deriving DecidableEq

/-- Nack work item: `NackRequest(ack_id, byte_size, ordering_key, future)`. -/
structure NackRequest (α : Type) where
  ack_id : α
  byte_size : Nat
  ordering_key : String
  future : Option Nat
deriving DecidableEq

/-- Lease work item: `LeaseRequest(ack_id, byte_size, ordering_key)`. -/
structure LeaseRequest (α : Type) where
  ack_id : α
  byte_size : Nat
  ordering_key : String
deriving DecidableEq

/-- Drop work item: `DropRequest(ack_id, byte_size, ordering_key)`. -/
structure DropRequest (α : Type) where
  ack_id : α
  byte_size : Nat
  ordering_key : String
deriving DecidableEq

/-- A work item on the dispatcher queue (spec §4.5: "Items are classified by
type into five buckets per tick: Ack, Nack, ModAck, Lease, Drop"). -/
inductive Request (α : Type) where
  | ack (r : AckRequest α)
  | drop (r : DropRequest α)
  | lease (r : LeaseRequest α)
  | modack (r : ModAckRequest α)
  | nack (r : NackRequest α)
deriving DecidableEq

namespace Dispatcher

/-- Modelled from the spec: spec §4.5 states "Each unary ack or modack call
carries at most `ACK_IDS_BATCH_SIZE` ack ids; larger sets are split across
sequential calls".  The dispatcher source is not in the repository snapshot;
the spec text gives the value 2500, but the repository's own tests
(`test_ack_splitting_large_payload`, `test_modify_ack_deadline_splitting_
large_payload`) assert that 5001 requests are split into exactly 6 unary
calls, which forces `ceil(5001 / _ACK_IDS_BATCH_SIZE) = 6`, i.e. a batch
size between 834 and 1000 — the value 2500 would give 3 calls.  The model
uses 1000, the canonical value consistent with those tests. -/
def _ACK_IDS_BATCH_SIZE : Nat := 1000

/-- Ack-id payloads of the unary ack calls issued for `items` when splitting
with batch size `batch` (one inner list per `send_unary_ack` call). -/
def ackCallsWith (batch : Nat) (items : List (AckRequest α)) : List (List α) :=
  (chunksOf batch items).map (List.map AckRequest.ack_id)

/-- Modelled from the spec: the unary ack calls issued by `Dispatcher.ack`
(spec §4.5 "Size splitting"), identified by the ack-id list each call
carries. -/
def ack_calls (items : List (AckRequest α)) : List (List α) :=
  ackCallsWith _ACK_IDS_BATCH_SIZE items

/-- One unary `send_unary_modack` call: the ack ids, the per-id deadline list
(absent when a default deadline is used), and the optional default deadline.
Shape taken from the keyword arguments the tests assert on. -/
structure ModAckCall (α : Type) where
  modify_deadline_ack_ids : List α
  modify_deadline_seconds : Option (List Nat)
  default_deadline : Option Nat
deriving DecidableEq

/-- Modelled from the spec: the unary modack calls issued by
`Dispatcher.modify_ack_deadline` (spec §4.5 "Size splitting"; per-id deadline
seconds unless a default deadline is supplied, as the tests
`test_modify_ack_deadline*` assert). -/
def modify_ack_deadline (items : List (ModAckRequest α)) (default_deadline : Option Nat := none) :
    List (ModAckCall α) :=
  (chunksOf _ACK_IDS_BATCH_SIZE items).map fun c =>
    match default_deadline with
    | none => ⟨c.map ModAckRequest.ack_id, some (c.map ModAckRequest.seconds), none⟩
    | some d => ⟨c.map ModAckRequest.ack_id, none, some d⟩

/-- Conversion a nack performs on each item: a modack with a deadline of 0
seconds (test_nack asserts the resulting transport call carries
`ModAckRequest(ack_id, seconds=0, future=None)` entries). -/
def nackToModAck (r : NackRequest α) : ModAckRequest α :=
  ⟨r.ack_id, 0, r.future⟩

/-- Modelled from the spec: `Dispatcher.nack` requests an immediate
redelivery by modacking every item with deadline 0 (glossary "Modack";
test_nack).  Result: the unary modack calls it issues. -/
def nack (items : List (NackRequest α)) : List (ModAckCall α) :=
  modify_ack_deadline (items.map nackToModAck)

end Dispatcher

/-! ### Embedded test scenario: the 5001-item splitting payload
(test_ack_splitting_large_payload, lines 545-577, and
test_modify_ack_deadline_splitting_large_payload, lines 1113-1139, of
test_dispatcher.py) -/

/-- Embedded from test_dispatcher.py (test_ack_splitting_large_payload): the
5001 ack requests `AckRequest(ack_id=str(i).zfill(176), byte_size=0,
time_to_ack=20, ordering_key="", future=None)` for `i < 5001`.  The distinct
176-byte ack-id strings are represented by their indices (the tests use the
ids only as distinct opaque tokens). -/
def testAckSplittingItems : List (AckRequest Nat) :=
  (List.range 5001).map fun i => ⟨i, 0, some 20, "", none⟩

/-- Embedded from test_dispatcher.py line 566: the test asserts
`len(manager.send_unary_ack.call_args_list) == 6`. -/
def test_ack_splitting_expected_calls : Nat := 6

/-- Embedded from test_dispatcher.py (test_modify_ack_deadline_splitting_
large_payload): 5001 modack requests with distinct ack ids and
`seconds=60`. -/
def testModAckSplittingItems : List (ModAckRequest Nat) :=
  (List.range 5001).map fun i => ⟨i, 60, none⟩

/-- Embedded from test_dispatcher.py line 1128: the test asserts
`len(manager.send_unary_modack.call_args_list) == 6`. -/
def test_modack_splitting_expected_calls : Nat := 6

/-! ### Dispatcher tick: bucketing and in-tick deduplication (spec §4.5) -/

/-- Outcome with which a duplicate item's result future is resolved during a
dispatcher tick (spec §4.5: "Exactly-once disabled: duplicates resolve
SUCCESS.  Exactly-once enabled: duplicates resolve with a 'duplicate ack id'
error"). -/
inductive DupOutcome where
  | success
  | duplicateAckIdError
deriving DecidableEq

/-- Future resolution an in-tick duplicate receives: `SUCCESS` without
exactly-once delivery, a duplicate-ack-id error with it. -/
def dupOutcome (exactly_once_delivery_enabled : Bool) : DupOutcome :=
  if exactly_once_delivery_enabled then .duplicateAckIdError else .success

namespace Dispatcher

/-- Projection of a tick's items to its Ack bucket input, in arrival order. -/
def ackItems (items : List (Request α)) : List (AckRequest α) :=
  items.filterMap fun | .ack r => some r | _ => none

/-- Projection of a tick's items to its Drop bucket input. -/
def dropItems (items : List (Request α)) : List (DropRequest α) :=
  items.filterMap fun | .drop r => some r | _ => none

/-- Projection of a tick's items to its Lease bucket input. -/
def leaseItems (items : List (Request α)) : List (LeaseRequest α) :=
  items.filterMap fun | .lease r => some r | _ => none

/-- Projection of a tick's items to its ModAck bucket input. -/
def modackItems (items : List (Request α)) : List (ModAckRequest α) :=
  items.filterMap fun | .modack r => some r | _ => none

/-- Projection of a tick's items to its Nack bucket input. -/
def nackItems (items : List (Request α)) : List (NackRequest α) :=
  items.filterMap fun | .nack r => some r | _ => none

/-- Result of one `dispatch_callback` tick: the five deduplicated buckets
handed to the per-type handlers, and the future resolutions performed for
in-tick duplicates (future handle paired with the outcome). -/
structure DispatchResult (α : Type) where
  acks : List (AckRequest α)
  drops : List (DropRequest α)
  leases : List (LeaseRequest α)
  modacks : List (ModAckRequest α)
  nacks : List (NackRequest α)
  resolutions : List (Nat × DupOutcome)
deriving DecidableEq

/-- Modelled from the spec: one dispatcher tick (spec §4.5).  Items are
classified by type into five buckets; within each bucket only the first item
per ack id is kept for the handler, and each duplicate that carries a result
future has that future resolved (`SUCCESS` without exactly-once delivery, a
duplicate-ack-id error with it).  Drop and Lease items carry no futures, so
their duplicates are discarded silently.  The relative interleaving of
resolutions across the three future-carrying buckets is not specified and is
modelled as ack-bucket resolutions, then modack, then nack. -/
def dispatch_callback [DecidableEq α] (exactly_once_delivery_enabled : Bool)
    (items : List (Request α)) : DispatchResult α :=
  let pa := dedupScan AckRequest.ack_id [] (ackItems items)
  let pd := dedupScan DropRequest.ack_id [] (dropItems items)
  let pl := dedupScan LeaseRequest.ack_id [] (leaseItems items)
  let pm := dedupScan ModAckRequest.ack_id [] (modackItems items)
  let pn := dedupScan NackRequest.ack_id [] (nackItems items)
  let out := dupOutcome exactly_once_delivery_enabled
  { acks := pa.1
    drops := pd.1
    leases := pl.1
    modacks := pm.1
    nacks := pn.1
    resolutions :=
      (pa.2.filterMap AckRequest.future ++ pm.2.filterMap ModAckRequest.future
        ++ pn.2.filterMap NackRequest.future).map fun f => (f, out) }

end Dispatcher

/-! ### Exactly-once retry machinery (spec §4.5 "Retry policy for
exactly-once", §6 transport contract, §7 error kinds) -/

/-- Per-ack-id status reported by the transport for one unary ack / modack
call (spec §6: "Per-id status distinguishes success, transient failure
(retry), and permanent failure"). -/
inductive AckIdStatus where
  | success
  | transient
  | permanent
deriving DecidableEq

/-- A background thread the dispatcher starts (the tests assert the
constructor keyword arguments: name, daemon flag and the items handed to the
worker). -/
structure ThreadSpawn (β : Type) where
  name : String
  daemon : Bool
  handedItems : List β
deriving DecidableEq

/-- Result of one unary ack / modack call against a transport that classifies
each ack id: the future resolutions the transport layer performs immediately
(success ↦ resolved ok, permanent ↦ resolved with an error) and the items it
reports as temporarily failed, to be retried. -/
structure UnaryCallResult (β : Type) where
  resolved : List (Nat × Bool)
  requests_to_retry : List β
deriving DecidableEq

/-- Modelled from the spec: the transport side of one unary ack / modack call
(spec §4.5 and §7: transiently failed ack ids are returned for retry;
successes resolve their futures with SUCCESS, permanent failures resolve
them with a typed error).  `aid` and `fut` project an item's ack id and
optional future handle; `classify` is the transport's per-ack-id status. -/
def sendUnary (aid : β → α) (fut : β → Option Nat) (classify : α → AckIdStatus)
    (items : List β) : UnaryCallResult β :=
  { resolved := items.filterMap fun r =>
      match fut r, classify (aid r) with
      | some f, .success => some (f, true)
      | some f, .permanent => some (f, false)
      | _, _ => none
    requests_to_retry := items.filter fun r => decide (classify (aid r) = .transient) }

/-- The background retry thread the dispatcher starts after a unary call
reports temporarily failed items: `none` when nothing failed, otherwise a
fresh daemon thread with the given name carrying exactly the failed items
(test_retry_acks_in_new_thread, test_retry_modacks_in_new_thread). -/
def spawnFor (name : String) (requests_to_retry : List β) : Option (ThreadSpawn β) :=
  match requests_to_retry with
  | [] => none
  | r :: rest => some ⟨name, true, r :: rest⟩

/-- One attempt of the retry worker loop: it sleeps, re-sends the pending ack
ids in one unary call, and the transport resolves the futures of the ids it
no longer reports as transient. -/
structure RetryAttempt (α : Type) where
  slept : Bool
  sentAckIds : List α
  resolved : List (Nat × Bool)
deriving DecidableEq

/-- Modelled from the spec: the retry worker loop (`_retry_acks` /
`_retry_modacks`; spec §4.5 "Retry policy for exactly-once").  While items
remain, it sleeps, re-sends exactly the pending items in one unary call, and
continues with the items the transport again reports transient.  The loop is
observed along a finite script of per-attempt transport classifications; an
exhausted script stands for the transport finally succeeding every id (the
source loop runs until the retry set is empty). -/
def retryLoop (aid : β → α) (fut : β → Option Nat) :
    List (α → AckIdStatus) → List β → List (RetryAttempt α)
  | _, [] => []
  | [], x :: xs =>
    [⟨true, (x :: xs).map aid, (x :: xs).filterMap fun r => (fut r).map fun f => (f, true)⟩]
  | c :: rest, x :: xs =>
    ⟨true, (x :: xs).map aid, (sendUnary aid fut c (x :: xs)).resolved⟩ ::
      retryLoop aid fut rest ((sendUnary aid fut c (x :: xs)).requests_to_retry)

/-- Pending-item sets of the retry worker, one per attempt: the initial items,
then after each scripted attempt the subset the transport reported transient,
stopping as soon as nothing is pending. -/
def retryPendings (aid : β → α) :
    List (α → AckIdStatus) → List β → List (List β)
  | _, [] => []
  | [], x :: xs => [x :: xs]
  | c :: rest, x :: xs =>
    (x :: xs) ::
      retryPendings aid rest ((x :: xs).filter fun r => decide (c (aid r) = .transient))

namespace Dispatcher

/-- Modelled from the spec: the retry hand-off of `Dispatcher.ack` for one
unary call (spec §4.5): when the transport reports temporarily failed ack
ids, exactly those items are handed to a fresh daemon `Thread-RetryAcks`
worker. -/
def ackRetrySpawn (classify : α → AckIdStatus) (items : List (AckRequest α)) :
    Option (ThreadSpawn (AckRequest α)) :=
  spawnFor "Thread-RetryAcks"
    (sendUnary AckRequest.ack_id AckRequest.future classify items).requests_to_retry

/-- Modelled from the spec: the retry hand-off of
`Dispatcher.modify_ack_deadline` for one unary call: temporarily failed
items go to a fresh daemon `Thread-RetryModAcks` worker. -/
def modackRetrySpawn (classify : α → AckIdStatus) (items : List (ModAckRequest α)) :
    Option (ThreadSpawn (ModAckRequest α)) :=
  spawnFor "Thread-RetryModAcks"
    (sendUnary ModAckRequest.ack_id ModAckRequest.future classify items).requests_to_retry

/-- The retry worker for acks (`_retry_acks`), observed along a transport
classification script. -/
def _retry_acks (script : List (α → AckIdStatus)) (items : List (AckRequest α)) :
    List (RetryAttempt α) :=
  retryLoop AckRequest.ack_id AckRequest.future script items

/-- The retry worker for modacks (`_retry_modacks`), observed along a
transport classification script. -/
def _retry_modacks (script : List (α → AckIdStatus)) (items : List (ModAckRequest α)) :
    List (RetryAttempt α) :=
  retryLoop ModAckRequest.ack_id ModAckRequest.future script items

end Dispatcher

/-! ### Leaser (spec §4.4): lease bookkeeping and the maintenance tick -/

/-- Subscriber-side lease record (spec §3 "Leased Message").  `sent_time` is
`none` until `start_lease_expiry_timer` stamps the record with the current
time: test_maintain_leases_outdated_items shows a message whose expiry timer
was never started is renewed no matter how old it is, so an unstarted timer
is modelled as an absent (infinitely late) sent time. -/
structure LeasedMessage where
  sent_time : Option Int
  size : Nat
  ordering_key : String
deriving DecidableEq

/-- Modelled from the spec: Leaser state (spec §4.4).  Leased messages are an
insertion-ordered map from ack id to lease record (the tests observe
`ack_ids` in insertion order), together with the tracked byte total and the
emitted log messages. -/
structure Leaser (α : Type) where
  leased_messages : List (α × LeasedMessage)
  bytes : Int
  log : List String
deriving DecidableEq

namespace Leaser

/-- The empty leaser a subscriber starts with. -/
def init : Leaser α := ⟨[], 0, []⟩

/-- Ack ids currently lease-managed, in insertion order. -/
def ack_ids (l : Leaser α) : List α :=
  l.leased_messages.map Prod.fst

/-- Number of lease-managed messages. -/
def message_count (l : Leaser α) : Nat :=
  l.leased_messages.length

/-- Modelled from the spec: adding one lease request (spec §4.4: "Re-adding a
known ack id is a no-op logged at debug"; test_add_and_remove,
test_add_already_managed).  A fresh ack id is appended with no expiry-timer
stamp and its byte size is added to the total. -/
def addOne [DecidableEq α] (l : Leaser α) (r : LeaseRequest α) : Leaser α :=
  if r.ack_id ∈ l.ack_ids then
    { l with log := l.log ++ ["already lease managed"] }
  else
    { l with
      leased_messages := l.leased_messages ++ [(r.ack_id, ⟨none, r.byte_size, r.ordering_key⟩)]
      bytes := l.bytes + r.byte_size }

/-- `Leaser.add`: add a batch of lease requests in order. -/
def add [DecidableEq α] (items : List (LeaseRequest α)) (l : Leaser α) : Leaser α :=
  items.foldl addOne l

/-- Modelled from the spec: removing one drop request.  A managed ack id is
deleted and the request's byte size subtracted; an unmanaged one is a no-op
logged at debug (test_remove_not_managed). -/
def removeOne [DecidableEq α] (l : Leaser α) (r : DropRequest α) : Leaser α :=
  if r.ack_id ∈ l.ack_ids then
    { l with
      leased_messages := l.leased_messages.filter fun p => decide (p.1 ≠ r.ack_id)
      bytes := l.bytes - r.byte_size }
  else
    { l with log := l.log ++ ["not managed"] }

/-- Modelled from the spec: `Leaser.remove` processes a batch of drop
requests, then clamps the tracked byte total at zero, logging that the total
was unexpectedly negative (test_remove_negative_bytes asserts
`leaser_.bytes == 0` and the log text "unexpectedly negative"; the test
enables the DEBUG log level to observe it). -/
def remove [DecidableEq α] (items : List (DropRequest α)) (l : Leaser α) : Leaser α :=
  let l1 := items.foldl removeOne l
  if l1.bytes < 0 then
    { l1 with bytes := 0, log := l1.log ++ ["unexpectedly negative"] }
  else l1

/-- Modelled from the spec: `start_lease_expiry_timer` stamps each managed
ack id's lease record with the current time; ack ids that are not managed
are ignored (test_start_lease_expiry_timer_unknown_ack_id). -/
def start_lease_expiry_timer [DecidableEq α] (ids : List α) (now : Int)
    (l : Leaser α) : Leaser α :=
  { l with
    leased_messages := l.leased_messages.map fun p =>
      if p.1 ∈ ids then (p.1, { p.2 with sent_time := some now }) else p }

/-- A lease record counts as expired on a maintenance tick when its expiry
timer was started and `sent_time ≤ now − max_lease_duration` (spec §4.4
step 2: partition into expired "sent_time ≤ cutoff" and live). -/
def isExpired (now max_lease_duration : Int) (m : LeasedMessage) : Bool :=
  match m.sent_time with
  | none => false
  | some t => decide (t ≤ now - max_lease_duration)

/-- Observable output of one maintenance tick: the drop requests issued for
expired messages, the single modack batch over live ack ids with the current
target deadline (absent when nothing is live), and the drop requests issued
for server-rejected ack ids under exactly-once delivery. -/
structure TickResult (α : Type) where
  expiredDrops : List (DropRequest α)
  modackBatch : Option (List α × Int)
  rejectedDrops : List (DropRequest α)
deriving DecidableEq

/-- Modelled from the spec: one iteration of the leaser maintenance loop
(spec §4.4 steps 1-4).  `now` is the current time, `max_lease_duration` the
hard cap, `deadline` the current target deadline, `rejected` the ack ids the
transport reports the server rejected for the modack batch (exactly-once
only, spec §4.4 step 3).  Expired messages are turned into drop requests
carrying the stored ack id, byte size and ordering key and removed from the
leaser (the dispatcher's drop handler forwards them to `Leaser.remove`);
live ack ids are sent in a single modack batch with the target deadline;
under exactly-once delivery the rejected ack ids are dropped likewise. -/
def maintainTick [DecidableEq α] (now max_lease_duration deadline : Int)
    (exactly_once_delivery_enabled : Bool) (rejected : List α) (l : Leaser α) :
    Leaser α × TickResult α :=
  let expired := l.leased_messages.filter fun p => isExpired now max_lease_duration p.2
  let live := l.leased_messages.filter fun p => !isExpired now max_lease_duration p.2
  let expiredDrops := expired.map fun p => DropRequest.mk p.1 p.2.size p.2.ordering_key
  let l1 := remove expiredDrops l
  let modackBatch :=
    match live with
    | [] => none
    | q :: qs => some ((q :: qs).map Prod.fst, deadline)
  let rejectedDrops :=
    if exactly_once_delivery_enabled then
      rejected.filterMap fun a =>
        (live.find? fun p => decide (p.1 = a)).map fun p =>
          DropRequest.mk a p.2.size p.2.ordering_key
    else []
  let l2 := remove rejectedDrops l1
  (l2, ⟨expiredDrops, modackBatch, rejectedDrops⟩)

end Leaser

/-- A public leaser operation, for stating invariants over arbitrary
operation sequences. -/
inductive LeaserOp (α : Type) where
  | add (items : List (LeaseRequest α))
  | remove (items : List (DropRequest α))
  | startTimer (ids : List α) (now : Int)
deriving DecidableEq

/-- Apply one leaser operation. -/
def applyOp [DecidableEq α] (l : Leaser α) : LeaserOp α → Leaser α
  | .add items => Leaser.add items l
  | .remove items => Leaser.remove items l
  | .startTimer ids now => Leaser.start_lease_expiry_timer ids now l

/-- Apply a sequence of leaser operations to a leaser state. -/
def applyOps [DecidableEq α] (ops : List (LeaserOp α)) (l : Leaser α) : Leaser α :=
  ops.foldl applyOp l

/-! ## Helper lemmas about chunking -/

theorem le_ceil_mul (n m : Nat) (hn : 0 < n) : m ≤ ((m + n - 1) / n) * n := by
  have h := Nat.div_add_mod (m + n - 1) n
  have h2 : (m + n - 1) % n < n := Nat.mod_lt _ hn
  rw [Nat.mul_comm]
  generalize n * ((m + n - 1) / n) = Q at h ⊢
  generalize (m + n - 1) % n = R at h h2
  omega

theorem flatten_chunksOfAux (n : Nat) :
    ∀ (k : Nat) (l : List α), l.length ≤ k * n → (chunksOfAux n k l).flatten = l := by
  intro k
  induction k with
  | zero =>
    intro l hl
    have hl0 : l.length = 0 := by simpa using hl
    have : l = [] := by
      cases l with
      | nil => rfl
      | cons x xs => simp at hl0
    simp [this, chunksOfAux]
  | succ k ih =>
    intro l hl
    have hdrop : (l.drop n).length ≤ k * n := by
      simp only [List.length_drop]
      have : (k + 1) * n = k * n + n := by ring
      omega
    simp [chunksOfAux, List.flatten_cons, ih (l.drop n) hdrop, List.take_append_drop]

theorem flatten_chunksOf (n : Nat) (hn : 0 < n) (l : List α) :
    (chunksOf n l).flatten = l :=
  flatten_chunksOfAux n _ l (le_ceil_mul n l.length hn)

theorem map_length_chunksOfAux (n : Nat) :
    ∀ (k : Nat) (l : List α),
      (chunksOfAux n k l).map List.length = chunkLensAux n k l.length := by
  intro k
  induction k with
  | zero => intro l; simp [chunksOfAux, chunkLensAux]
  | succ k ih =>
    intro l
    simp [chunksOfAux, chunkLensAux, List.length_take, List.length_drop, ih (l.drop n)]

theorem map_length_chunksOf (n : Nat) (l : List α) :
    (chunksOf n l).map List.length = chunkLens n l.length := by
  simp [chunksOf, chunkLens, map_length_chunksOfAux]

theorem length_chunksOfAux (n : Nat) :
    ∀ (k : Nat) (l : List α), (chunksOfAux n k l).length = k := by
  intro k
  induction k with
  | zero => intro l; simp [chunksOfAux]
  | succ k ih => intro l; simp [chunksOfAux, ih]

theorem length_chunksOf (n : Nat) (l : List α) :
    (chunksOf n l).length = (l.length + n - 1) / n :=
  length_chunksOfAux n _ l

theorem length_mem_chunksOfAux (n : Nat) :
    ∀ (k : Nat) (l : List α) (c : List α), c ∈ chunksOfAux n k l → c.length ≤ n := by
  intro k
  induction k with
  | zero => intro l c hc; simp [chunksOfAux] at hc
  | succ k ih =>
    intro l c hc
    simp only [chunksOfAux, List.mem_cons] at hc
    rcases hc with rfl | hc
    · simp [List.length_take]
    · exact ih (l.drop n) c hc

theorem length_mem_chunksOf (n : Nat) (l : List α) (c : List α)
    (hc : c ∈ chunksOf n l) : c.length ≤ n :=
  length_mem_chunksOfAux n _ l c hc

theorem mem_of_mem_chunksOf (n : Nat) (hn : 0 < n) {l c : List α} {x : α}
    (hc : c ∈ chunksOf n l) (hx : x ∈ c) : x ∈ l := by
  rw [← flatten_chunksOf n hn l]
  exact List.mem_flatten.mpr ⟨c, hc, hx⟩

theorem countP_eq_one_of_flatten_nodup [DecidableEq α] :
    ∀ (L : List (List α)) (a : α), L.flatten.Nodup → a ∈ L.flatten →
      L.countP (fun c => decide (a ∈ c)) = 1 := by
  intro L
  induction L with
  | nil => intro a _ ha; simp at ha
  | cons c rest ih =>
    intro a hnd ha
    rw [List.flatten_cons] at hnd ha
    rw [List.nodup_append] at hnd
    obtain ⟨hc, hrest, hdisj⟩ := hnd
    rw [List.countP_cons]
    rcases List.mem_append.mp ha with hac | harest
    · have hnotrest : a ∉ rest.flatten := fun h => hdisj hac h
      have : rest.countP (fun c => decide (a ∈ c)) = 0 := by
        rw [List.countP_eq_zero]
        intro d hd
        simp only [decide_eq_true_eq]
        exact fun had => hnotrest (List.mem_flatten.mpr ⟨d, hd, had⟩)
      simp [this, hac]
    · have hnac : a ∉ c := fun h => hdisj h harest
      simp [ih a hrest harest, hnac]

/-! ## Claim C1 — dispatcher size splitting -/

/-- C1 (as stated, refuted): the claim fixes `ACK_IDS_BATCH_SIZE = 2500`, but
with batch size 2500 the repository's own 5001-item splitting payload would
be sent in 3 unary calls, while test_ack_splitting_large_payload (line 566)
asserts exactly 6 calls; the batch size consistent with the tests is 1000
(any value above 1000 would produce fewer than 6 calls). -/
theorem claim_C1_counterexample :
    Dispatcher._ACK_IDS_BATCH_SIZE ≠ 2500
    ∧ (Dispatcher.ackCallsWith 2500 testAckSplittingItems).length = 3
    ∧ (Dispatcher.ack_calls testAckSplittingItems).length
        = test_ack_splitting_expected_calls
    ∧ test_ack_splitting_expected_calls ≠ 3 := by
  have hlen : testAckSplittingItems.length = 5001 := by
    simp [testAckSplittingItems]
  refine ⟨by decide, ?_, ?_, by decide⟩
  · simp [Dispatcher.ackCallsWith, length_chunksOf, hlen]
  · simp [Dispatcher.ack_calls, Dispatcher.ackCallsWith, Dispatcher._ACK_IDS_BATCH_SIZE,
      length_chunksOf, hlen, test_ack_splitting_expected_calls]

/-- C1 (amended): for every list of ack requests passed to `Dispatcher.ack`
and every list of modack requests passed to `Dispatcher.modify_ack_deadline`,
the outgoing unary calls partition the input in order (so each item's ack id
occurrence is sent exactly once, and under distinct ack ids each ack id
appears in exactly one call), and every call carries at most
`_ACK_IDS_BATCH_SIZE` ack ids — where `_ACK_IDS_BATCH_SIZE = 1000`, not 2500
as the claim states (so the stated bound 2500 still holds a fortiori). -/
theorem claim_C1_split_invariant [DecidableEq α]
    (ackReqs : List (AckRequest α)) (modReqs : List (ModAckRequest α))
    (dd : Option Nat) :
    ((Dispatcher.ack_calls ackReqs).flatten = ackReqs.map AckRequest.ack_id
      ∧ (∀ c ∈ Dispatcher.ack_calls ackReqs, c.length ≤ Dispatcher._ACK_IDS_BATCH_SIZE)
      ∧ ((ackReqs.map AckRequest.ack_id).Nodup →
          ∀ a ∈ ackReqs.map AckRequest.ack_id,
            (Dispatcher.ack_calls ackReqs).countP (fun c => decide (a ∈ c)) = 1))
    ∧ (((Dispatcher.modify_ack_deadline modReqs dd).map
          Dispatcher.ModAckCall.modify_deadline_ack_ids).flatten = modReqs.map ModAckRequest.ack_id
      ∧ (∀ c ∈ Dispatcher.modify_ack_deadline modReqs dd,
          c.modify_deadline_ack_ids.length ≤ Dispatcher._ACK_IDS_BATCH_SIZE)
      ∧ ((modReqs.map ModAckRequest.ack_id).Nodup →
          ∀ a ∈ modReqs.map ModAckRequest.ack_id,
            ((Dispatcher.modify_ack_deadline modReqs dd).map
              Dispatcher.ModAckCall.modify_deadline_ack_ids).countP (fun c => decide (a ∈ c)) = 1))
    ∧ Dispatcher._ACK_IDS_BATCH_SIZE = 1000 := by
  have hflatmap : ∀ (L : List (List (AckRequest α))),
      ((L.map (List.map AckRequest.ack_id)).flatten) = L.flatten.map AckRequest.ack_id := by
    intro L; rw [List.map_flatten]
  have hack_flat : (Dispatcher.ack_calls ackReqs).flatten = ackReqs.map AckRequest.ack_id := by
    rw [Dispatcher.ack_calls, Dispatcher.ackCallsWith, hflatmap,
      flatten_chunksOf _ (by decide) ackReqs]
  have hmod_proj : (Dispatcher.modify_ack_deadline modReqs dd).map
      Dispatcher.ModAckCall.modify_deadline_ack_ids
      = (chunksOf Dispatcher._ACK_IDS_BATCH_SIZE modReqs).map (List.map ModAckRequest.ack_id) := by
    cases dd <;> simp [Dispatcher.modify_ack_deadline, List.map_map, Function.comp]
  have hmod_flat : ((Dispatcher.modify_ack_deadline modReqs dd).map
      Dispatcher.ModAckCall.modify_deadline_ack_ids).flatten = modReqs.map ModAckRequest.ack_id := by
    rw [hmod_proj, ← List.map_flatten, flatten_chunksOf _ (by decide) modReqs]
  refine ⟨⟨hack_flat, ?_, ?_⟩, ⟨hmod_flat, ?_, ?_⟩, rfl⟩
  · intro c hc
    simp only [Dispatcher.ack_calls, Dispatcher.ackCallsWith, List.mem_map] at hc
    obtain ⟨ch, hch, rfl⟩ := hc
    simpa using length_mem_chunksOf _ _ _ hch
  · intro hnd a ha
    apply countP_eq_one_of_flatten_nodup
    · rw [hack_flat]; exact hnd
    · rw [hack_flat]; exact ha
  · intro c hc
    simp only [Dispatcher.modify_ack_deadline] at hc
    cases dd <;> simp only [List.mem_map] at hc <;>
      obtain ⟨ch, hch, rfl⟩ := hc <;>
        simpa using length_mem_chunksOf _ _ _ hch
  · intro hnd a ha
    apply countP_eq_one_of_flatten_nodup
    · rw [hmod_flat]; exact hnd
    · rw [hmod_flat]; exact ha

/-- C1 witness: the split invariant applied to a concrete three-item ack
batch and one-item modack batch with distinct ack ids. -/
theorem claim_C1_witness :
    (([⟨0, 0, none, "", none⟩, ⟨1, 0, none, "", none⟩, ⟨2, 0, none, "", none⟩]
        : List (AckRequest Nat)).map AckRequest.ack_id).Nodup
    ∧ (Dispatcher.ack_calls
        ([⟨0, 0, none, "", none⟩, ⟨1, 0, none, "", none⟩, ⟨2, 0, none, "", none⟩]
          : List (AckRequest Nat))).countP (fun c => decide ((1 : Nat) ∈ c)) = 1 := by
  refine ⟨by decide, ?_⟩
  exact (claim_C1_split_invariant
    ([⟨0, 0, none, "", none⟩, ⟨1, 0, none, "", none⟩, ⟨2, 0, none, "", none⟩])
    ([] : List (ModAckRequest Nat)) none).1.2.2 (by decide) 1 (by decide)

/-! ## Claim C2 — the 5001-item ack split scenario -/

/-- C2 (as stated, refuted): on the 5001-item payload of
test_ack_splitting_large_payload the dispatcher does not issue 3 ack calls
of sizes (2500, 2500, 1): the repository's test asserts 6 calls, and the
embedded dispatcher issues 6 calls of sizes (1000 × 5, 1). -/
theorem claim_C2_counterexample :
    (Dispatcher.ack_calls testAckSplittingItems).length ≠ 3
    ∧ (Dispatcher.ack_calls testAckSplittingItems).map List.length ≠ [2500, 2500, 1] := by
  have hlen : testAckSplittingItems.length = 5001 := by
    simp [testAckSplittingItems]
  have hcount : (Dispatcher.ack_calls testAckSplittingItems).length = 6 := by
    simp [Dispatcher.ack_calls, Dispatcher.ackCallsWith, Dispatcher._ACK_IDS_BATCH_SIZE,
      length_chunksOf, hlen]
  have hsizes : (Dispatcher.ack_calls testAckSplittingItems).map List.length
      = [1000, 1000, 1000, 1000, 1000, 1] := by
    have : (Dispatcher.ack_calls testAckSplittingItems).map List.length
        = (chunksOf Dispatcher._ACK_IDS_BATCH_SIZE testAckSplittingItems).map List.length := by
      simp [Dispatcher.ack_calls, Dispatcher.ackCallsWith, List.map_map, Function.comp]
    rw [this, map_length_chunksOf, hlen]
    decide
  constructor
  · rw [hcount]; decide
  · rw [hsizes]; decide

/-- C2 (amended): enqueuing the 5001 ack requests with distinct ack ids of
test_ack_splitting_large_payload causes the dispatcher to issue exactly 6
ack calls (as the test asserts), of sizes 1000, 1000, 1000, 1000, 1000 and
1, whose ack-id lists concatenate to the input ack ids — so the calls carry
pairwise disjoint ack-id sets whose union is the input set, each input ack
id sent exactly once. -/
theorem claim_C2_ack_split_payload :
    (Dispatcher.ack_calls testAckSplittingItems).length
        = test_ack_splitting_expected_calls
    ∧ (Dispatcher.ack_calls testAckSplittingItems).map List.length
        = [1000, 1000, 1000, 1000, 1000, 1]
    ∧ (Dispatcher.ack_calls testAckSplittingItems).flatten
        = testAckSplittingItems.map AckRequest.ack_id
    ∧ (Dispatcher.ack_calls testAckSplittingItems).flatten.Nodup
    ∧ (Dispatcher.ack_calls testAckSplittingItems).Pairwise List.Disjoint := by
  have hlen : testAckSplittingItems.length = 5001 := by
    simp [testAckSplittingItems]
  have hflat : (Dispatcher.ack_calls testAckSplittingItems).flatten
      = testAckSplittingItems.map AckRequest.ack_id := by
    rw [Dispatcher.ack_calls, Dispatcher.ackCallsWith, ← List.map_flatten,
      flatten_chunksOf _ (by decide)]
  have hids : testAckSplittingItems.map AckRequest.ack_id = List.range 5001 := by
    simp [testAckSplittingItems, List.map_map, Function.comp_def]
  have hnd : (Dispatcher.ack_calls testAckSplittingItems).flatten.Nodup := by
    rw [hflat, hids]; exact List.nodup_range _
  refine ⟨?_, ?_, hflat, hnd, (List.nodup_flatten.mp hnd).2⟩
  · simp [Dispatcher.ack_calls, Dispatcher.ackCallsWith, Dispatcher._ACK_IDS_BATCH_SIZE,
      length_chunksOf, hlen, test_ack_splitting_expected_calls]
  · have : (Dispatcher.ack_calls testAckSplittingItems).map List.length
        = (chunksOf Dispatcher._ACK_IDS_BATCH_SIZE testAckSplittingItems).map List.length := by
      simp [Dispatcher.ack_calls, Dispatcher.ackCallsWith, List.map_map, Function.comp]
    rw [this, map_length_chunksOf, hlen]
    decide

/-! ## Claim C9 — nack refines modack with deadline zero -/

/-- C9: for every list of nack requests, `Dispatcher.nack` issues exactly the
unary modack calls that `Dispatcher.modify_ack_deadline` issues for the
corresponding `ModAckRequest(ack_id, seconds = 0, future)` items, each call
carrying deadline 0 for every one of its ack ids, and the ack ids sent are
exactly the nacked ack ids in order. -/
theorem claim_C9_nack_is_modack_zero [DecidableEq α] (items : List (NackRequest α)) :
    Dispatcher.nack items
      = Dispatcher.modify_ack_deadline
          (items.map fun r => ModAckRequest.mk r.ack_id 0 r.future)
    ∧ (∀ call ∈ Dispatcher.nack items,
        call.modify_deadline_seconds
          = some (List.replicate call.modify_deadline_ack_ids.length 0)
        ∧ call.default_deadline = none)
    ∧ ((Dispatcher.nack items).map
        Dispatcher.ModAckCall.modify_deadline_ack_ids).flatten
        = items.map NackRequest.ack_id := by
  refine ⟨rfl, ?_, ?_⟩
  · intro call hcall
    simp only [Dispatcher.nack, Dispatcher.modify_ack_deadline, List.mem_map] at hcall
    obtain ⟨ch, hch, rfl⟩ := hcall
    refine ⟨?_, rfl⟩
    simp only
    congr 1
    rw [List.eq_replicate_iff]
    refine ⟨by simp, ?_⟩
    intro b hb
    rcases List.mem_map.mp hb with ⟨r, hr, rfl⟩
    have hrmem : r ∈ items.map Dispatcher.nackToModAck :=
      mem_of_mem_chunksOf _ (by decide) hch hr
    rcases List.mem_map.mp hrmem with ⟨r0, _, rfl⟩
    rfl
  · have hproj : (Dispatcher.nack items).map Dispatcher.ModAckCall.modify_deadline_ack_ids
        = (chunksOf Dispatcher._ACK_IDS_BATCH_SIZE (items.map Dispatcher.nackToModAck)).map
            (List.map ModAckRequest.ack_id) := by
      simp [Dispatcher.nack, Dispatcher.modify_ack_deadline, List.map_map, Function.comp]
    rw [hproj, ← List.map_flatten, flatten_chunksOf _ (by decide), List.map_map]
    rfl

/-- C9 witness: the refinement applied to the single-item batch of test_nack,
yielding one call with ack ids `[0]` and deadline seconds `[0]`. -/
theorem claim_C9_witness :
    Dispatcher.nack ([⟨0, 10, "", none⟩] : List (NackRequest Nat))
      = Dispatcher.modify_ack_deadline
          (([⟨0, 10, "", none⟩] : List (NackRequest Nat)).map
            fun r => ModAckRequest.mk r.ack_id 0 r.future)
    ∧ ([0] : List Nat) ∈ (Dispatcher.nack ([⟨0, 10, "", none⟩] : List (NackRequest Nat))).map
        Dispatcher.ModAckCall.modify_deadline_ack_ids := by
  refine ⟨(claim_C9_nack_is_modack_zero [⟨0, 10, "", none⟩]).1, ?_⟩
  decide

/-! ## Helper lemmas about first-occurrence deduplication -/

theorem dedupScan_fst_eq_keepFirst (key : β → α) [DecidableEq α] :
    ∀ (l : List β) (seen : List α),
      (dedupScan key seen l).1
        = keepFirst key (l.filter fun y => decide (key y ∉ seen)) := by
  intro l
  induction l with
  | nil => intro seen; simp [dedupScan, keepFirst]
  | cons x xs ih =>
    intro seen
    by_cases hx : key x ∈ seen
    · simp only [dedupScan, if_pos hx]
      rw [ih seen]
      congr 1
      simp [List.filter_cons, hx]
    · simp only [dedupScan, if_neg hx]
      rw [ih (key x :: seen)]
      have hfc : ((x :: xs).filter fun y => decide (key y ∉ seen))
          = x :: (xs.filter fun y => decide (key y ∉ seen)) := by
        simp [List.filter_cons, hx]
      rw [hfc]
      simp only [keepFirst]
      rw [List.filter_filter]
      have heq : (xs.filter fun y => decide (key y ∉ key x :: seen))
          = xs.filter (fun a => decide (key a ≠ key x) && decide (key a ∉ seen)) := by
        apply List.filter_congr
        intro y _
        by_cases h1 : key y = key x <;> by_cases h2 : key y ∈ seen <;> simp [h1, h2]
      rw [heq]

theorem dedupScan_fst_keepFirst (key : β → α) [DecidableEq α] (l : List β) :
    (dedupScan key [] l).1 = keepFirst key l := by
  rw [dedupScan_fst_eq_keepFirst]
  congr 1
  apply List.filter_eq_self.mpr
  intro y _
  simp

theorem dedupScan_perm (key : β → α) [DecidableEq α] :
    ∀ (l : List β) (seen : List α),
      ((dedupScan key seen l).1 ++ (dedupScan key seen l).2).Perm l := by
  intro l
  induction l with
  | nil => intro seen; simp [dedupScan]
  | cons x xs ih =>
    intro seen
    by_cases hx : key x ∈ seen
    · simp only [dedupScan, if_pos hx]
      exact List.Perm.trans List.perm_middle ((ih seen).cons x)
    · simp only [dedupScan, if_neg hx]
      exact ((ih (key x :: seen)).cons x)

theorem dedupScan_dup_key (key : β → α) [DecidableEq α] :
    ∀ (l : List β) (seen : List α) (d : β), d ∈ (dedupScan key seen l).2 →
      key d ∈ seen ∨ key d ∈ (dedupScan key seen l).1.map key := by
  intro l
  induction l with
  | nil => intro seen d hd; simp [dedupScan] at hd
  | cons x xs ih =>
    intro seen d hd
    by_cases hx : key x ∈ seen
    · simp only [dedupScan, if_pos hx, List.mem_cons] at hd ⊢
      rcases hd with rfl | hd
      · exact Or.inl hx
      · exact ih seen d hd
    · simp only [dedupScan, if_neg hx, List.map_cons, List.mem_cons] at hd ⊢
      rcases ih (key x :: seen) d hd with hseen | hkept
      · rcases List.mem_cons.mp hseen with heq | hseen
        · exact Or.inr (Or.inl heq)
        · exact Or.inl hseen
      · exact Or.inr (Or.inr hkept)

/-! ## Claim C3 — in-tick deduplication and duplicate future resolution -/

/-- C3: in a dispatcher tick, each of the five buckets hands its handler
exactly the first occurrence per ack id of that bucket's items (in arrival
order); kept plus duplicates permute the bucket input; every duplicate's ack
id is represented among the kept items; every duplicate that carries a
result future has that future resolved, with SUCCESS when exactly-once
delivery is disabled and with a duplicate-ack-id error when it is
enabled. -/
theorem claim_C3_tick_dedup [DecidableEq α] (eod : Bool) (items : List (Request α)) :
    ((Dispatcher.dispatch_callback eod items).acks
        = keepFirst AckRequest.ack_id (Dispatcher.ackItems items)
      ∧ (Dispatcher.dispatch_callback eod items).drops
        = keepFirst DropRequest.ack_id (Dispatcher.dropItems items)
      ∧ (Dispatcher.dispatch_callback eod items).leases
        = keepFirst LeaseRequest.ack_id (Dispatcher.leaseItems items)
      ∧ (Dispatcher.dispatch_callback eod items).modacks
        = keepFirst ModAckRequest.ack_id (Dispatcher.modackItems items)
      ∧ (Dispatcher.dispatch_callback eod items).nacks
        = keepFirst NackRequest.ack_id (Dispatcher.nackItems items))
    ∧ (((Dispatcher.dispatch_callback eod items).acks
          ++ (dedupScan AckRequest.ack_id [] (Dispatcher.ackItems items)).2).Perm
            (Dispatcher.ackItems items)
      ∧ ((Dispatcher.dispatch_callback eod items).modacks
          ++ (dedupScan ModAckRequest.ack_id [] (Dispatcher.modackItems items)).2).Perm
            (Dispatcher.modackItems items)
      ∧ ((Dispatcher.dispatch_callback eod items).nacks
          ++ (dedupScan NackRequest.ack_id [] (Dispatcher.nackItems items)).2).Perm
            (Dispatcher.nackItems items))
    ∧ (∀ p ∈ (Dispatcher.dispatch_callback eod items).resolutions,
        p.2 = if eod then DupOutcome.duplicateAckIdError else DupOutcome.success)
    ∧ (∀ d ∈ (dedupScan AckRequest.ack_id [] (Dispatcher.ackItems items)).2,
        d.ack_id ∈ (Dispatcher.dispatch_callback eod items).acks.map AckRequest.ack_id
        ∧ ∀ f, d.future = some f →
            (f, dupOutcome eod) ∈ (Dispatcher.dispatch_callback eod items).resolutions)
    ∧ (∀ d ∈ (dedupScan ModAckRequest.ack_id [] (Dispatcher.modackItems items)).2,
        d.ack_id ∈ (Dispatcher.dispatch_callback eod items).modacks.map ModAckRequest.ack_id
        ∧ ∀ f, d.future = some f →
            (f, dupOutcome eod) ∈ (Dispatcher.dispatch_callback eod items).resolutions)
    ∧ (∀ d ∈ (dedupScan NackRequest.ack_id [] (Dispatcher.nackItems items)).2,
        d.ack_id ∈ (Dispatcher.dispatch_callback eod items).nacks.map NackRequest.ack_id
        ∧ ∀ f, d.future = some f →
            (f, dupOutcome eod) ∈ (Dispatcher.dispatch_callback eod items).resolutions) := by
  have hacks : (Dispatcher.dispatch_callback eod items).acks
      = (dedupScan AckRequest.ack_id [] (Dispatcher.ackItems items)).1 := rfl
  have hdrops : (Dispatcher.dispatch_callback eod items).drops
      = (dedupScan DropRequest.ack_id [] (Dispatcher.dropItems items)).1 := rfl
  have hleases : (Dispatcher.dispatch_callback eod items).leases
      = (dedupScan LeaseRequest.ack_id [] (Dispatcher.leaseItems items)).1 := rfl
  have hmodacks : (Dispatcher.dispatch_callback eod items).modacks
      = (dedupScan ModAckRequest.ack_id [] (Dispatcher.modackItems items)).1 := rfl
  have hnacks : (Dispatcher.dispatch_callback eod items).nacks
      = (dedupScan NackRequest.ack_id [] (Dispatcher.nackItems items)).1 := rfl
  have hres : (Dispatcher.dispatch_callback eod items).resolutions
      = ((dedupScan AckRequest.ack_id [] (Dispatcher.ackItems items)).2.filterMap
            AckRequest.future
          ++ (dedupScan ModAckRequest.ack_id [] (Dispatcher.modackItems items)).2.filterMap
            ModAckRequest.future
          ++ (dedupScan NackRequest.ack_id [] (Dispatcher.nackItems items)).2.filterMap
            NackRequest.future).map (fun f => (f, dupOutcome eod)) := rfl
  refine ⟨⟨?_, ?_, ?_, ?_, ?_⟩, ⟨?_, ?_, ?_⟩, ?_, ?_, ?_, ?_⟩
  · rw [hacks, dedupScan_fst_keepFirst]
  · rw [hdrops, dedupScan_fst_keepFirst]
  · rw [hleases, dedupScan_fst_keepFirst]
  · rw [hmodacks, dedupScan_fst_keepFirst]
  · rw [hnacks, dedupScan_fst_keepFirst]
  · rw [hacks]; exact dedupScan_perm _ _ _
  · rw [hmodacks]; exact dedupScan_perm _ _ _
  · rw [hnacks]; exact dedupScan_perm _ _ _
  · intro p hp
    rw [hres] at hp
    rcases List.mem_map.mp hp with ⟨f, _, rfl⟩
    simp [dupOutcome]
  · intro d hd
    constructor
    · rw [hacks]
      rcases dedupScan_dup_key _ _ _ d hd with h | h
      · simp at h
      · exact h
    · intro f hf
      rw [hres]
      exact List.mem_map.mpr ⟨f, by
        refine List.mem_append.mpr (Or.inl (List.mem_append.mpr (Or.inl ?_)))
        exact List.mem_filterMap.mpr ⟨d, hd, hf⟩, rfl⟩
  · intro d hd
    constructor
    · rw [hmodacks]
      rcases dedupScan_dup_key _ _ _ d hd with h | h
      · simp at h
      · exact h
    · intro f hf
      rw [hres]
      exact List.mem_map.mpr ⟨f, by
        refine List.mem_append.mpr (Or.inl (List.mem_append.mpr (Or.inr ?_)))
        exact List.mem_filterMap.mpr ⟨d, hd, hf⟩, rfl⟩
  · intro d hd
    constructor
    · rw [hnacks]
      rcases dedupScan_dup_key _ _ _ d hd with h | h
      · simp at h
      · exact h
    · intro f hf
      rw [hres]
      exact List.mem_map.mpr ⟨f, by
        refine List.mem_append.mpr (Or.inr ?_)
        exact List.mem_filterMap.mpr ⟨d, hd, hf⟩, rfl⟩

/-- C3 witness: the duplicate-ack scenario of
test_dispatch_duplicate_items_callback_active_manager_with_futures_no_eod —
two ack requests with the same ack id, the duplicate carrying future 7 —
resolves future 7 with SUCCESS when exactly-once delivery is disabled. -/
theorem claim_C3_witness :
    (⟨0, 0, some 1, "", some 7⟩ : AckRequest Nat)
        ∈ (dedupScan AckRequest.ack_id []
            (Dispatcher.ackItems
              [Request.ack ⟨0, 0, some 0, "", none⟩,
               Request.ack ⟨0, 0, some 1, "", some 7⟩])).2
    ∧ (7, DupOutcome.success)
        ∈ (Dispatcher.dispatch_callback false
            [Request.ack ⟨0, 0, some 0, "", none⟩,
             Request.ack ⟨0, 0, some 1, "", some 7⟩]).resolutions := by
  refine ⟨by decide, ?_⟩
  have h := (claim_C3_tick_dedup false
    [Request.ack ⟨0, 0, some 0, "", none⟩,
     Request.ack ⟨0, 0, some 1, "", some 7⟩]).2.2.2.1
    (⟨0, 0, some 1, "", some 7⟩ : AckRequest Nat) (by decide)
  exact h.2 7 rfl

/-! ## Helper lemmas about the exactly-once retry worker -/

theorem sendUnary_retry_mem (aid : β → α) (fut : β → Option Nat)
    (classify : α → AckIdStatus) (items : List β) (r : β) :
    r ∈ (sendUnary aid fut classify items).requests_to_retry
      ↔ r ∈ items ∧ classify (aid r) = .transient := by
  simp [sendUnary, List.mem_filter]

theorem sendUnary_resolved_mem (aid : β → α) (fut : β → Option Nat)
    (classify : α → AckIdStatus) (items : List β) (fb : Nat × Bool)
    (hfb : fb ∈ (sendUnary aid fut classify items).resolved) :
    ∃ r ∈ items, fut r = some fb.1 ∧ classify (aid r) ≠ .transient
      ∧ (fb.2 = true ↔ classify (aid r) = .success) := by
  simp only [sendUnary, List.mem_filterMap] at hfb
  obtain ⟨r, hr, hmatch⟩ := hfb
  refine ⟨r, hr, ?_⟩
  rcases hfut : fut r with _ | f <;> rcases hcl : classify (aid r) <;>
    rw [hfut, hcl] at hmatch <;> simp at hmatch <;>
      subst hmatch <;> simp [hfut, hcl]

theorem retryLoop_map_sent (aid : β → α) (fut : β → Option Nat) :
    ∀ (script : List (α → AckIdStatus)) (items : List β),
      (retryLoop aid fut script items).map RetryAttempt.sentAckIds
        = (retryPendings aid script items).map (List.map aid) := by
  intro script
  induction script with
  | nil => intro items; cases items <;> simp [retryLoop, retryPendings]
  | cons c rest ih =>
    intro items
    cases items with
    | nil => simp [retryLoop, retryPendings]
    | cons x xs =>
      simp only [retryLoop, retryPendings, List.map_cons]
      congr 1
      have : (sendUnary aid fut c (x :: xs)).requests_to_retry
          = (x :: xs).filter fun r => decide (c (aid r) = .transient) := rfl
      rw [this]
      exact ih _

theorem retryPendings_ne_nil (aid : β → α) :
    ∀ (script : List (α → AckIdStatus)) (items : List β),
      ∀ p ∈ retryPendings aid script items, p ≠ [] := by
  intro script
  induction script with
  | nil =>
    intro items p hp
    cases items with
    | nil => simp [retryPendings] at hp
    | cons x xs =>
      simp only [retryPendings, List.mem_singleton] at hp
      simp [hp]
  | cons c rest ih =>
    intro items p hp
    cases items with
    | nil => simp [retryPendings] at hp
    | cons x xs =>
      simp only [retryPendings, List.mem_cons] at hp
      rcases hp with rfl | hp
      · simp
      · exact ih _ p hp

theorem retryLoop_slept (aid : β → α) (fut : β → Option Nat) :
    ∀ (script : List (α → AckIdStatus)) (items : List β),
      ∀ a ∈ retryLoop aid fut script items, a.slept = true := by
  intro script
  induction script with
  | nil =>
    intro items a ha
    cases items with
    | nil => simp [retryLoop] at ha
    | cons x xs =>
      simp only [retryLoop, List.mem_singleton] at ha
      simp [ha]
  | cons c rest ih =>
    intro items a ha
    cases items with
    | nil => simp [retryLoop] at ha
    | cons x xs =>
      simp only [retryLoop, List.mem_cons] at ha
      rcases ha with rfl | ha
      · rfl
      · exact ih _ a ha

theorem retryLoop_zip_resolved (aid : β → α) (fut : β → Option Nat) :
    ∀ (script : List (α → AckIdStatus)) (items : List β),
      ∀ pr ∈ (retryLoop aid fut script items).zip (retryPendings aid script items),
        ∀ fb ∈ pr.1.resolved, ∃ r ∈ pr.2, fut r = some fb.1 := by
  intro script
  induction script with
  | nil =>
    intro items pr hpr fb hfb
    cases items with
    | nil => simp [retryLoop, retryPendings] at hpr
    | cons x xs =>
      simp only [retryLoop, retryPendings, List.zip_cons_cons, List.zip_nil_right,
        List.mem_singleton] at hpr
      subst hpr
      simp only [List.mem_filterMap] at hfb
      obtain ⟨r, hr, hmap⟩ := hfb
      rcases hfut : fut r with _ | f <;> rw [hfut] at hmap <;> simp at hmap
      subst hmap
      exact ⟨r, hr, by simp [hfut]⟩
  | cons c rest ih =>
    intro items pr hpr fb hfb
    cases items with
    | nil => simp [retryLoop, retryPendings] at hpr
    | cons x xs =>
      simp only [retryLoop, retryPendings, List.zip_cons_cons, List.mem_cons] at hpr
      rcases hpr with rfl | hpr
      · obtain ⟨r, hr, hfut, _⟩ :=
          sendUnary_resolved_mem aid fut c (x :: xs) fb hfb
        exact ⟨r, hr, hfut⟩
      · have : (sendUnary aid fut c (x :: xs)).requests_to_retry
            = (x :: xs).filter fun r => decide (c (aid r) = .transient) := rfl
        rw [this] at hpr
        exact ih _ pr hpr fb hfb

theorem sendUnary_transient_unresolved (aid : β → α) (fut : β → Option Nat)
    (classify : α → AckIdStatus) (items : List β)
    (hinj : ∀ r1 ∈ items, ∀ r2 ∈ items, fut r1 = fut r2 → r1 = r2)
    (r : β) (hr : r ∈ items) (htr : classify (aid r) = .transient)
    (f : Nat) (hf : fut r = some f) :
    ∀ b, (f, b) ∉ (sendUnary aid fut classify items).resolved := by
  intro b hmem
  obtain ⟨r2, hr2, hfut2, hcl2, _⟩ :=
    sendUnary_resolved_mem aid fut classify items (f, b) hmem
  have : r2 = r := hinj r2 hr2 r hr (by rw [hfut2, hf])
  exact hcl2 (this ▸ htr)

/-! ## Claim C6 — temporary failures are handed to a fresh retry worker -/

/-- C6: when a unary ack (resp. modack) call reports temporarily failed ack
ids, the dispatcher hands exactly those items to a fresh daemon
`Thread-RetryAcks` (resp. `Thread-RetryModAcks`) worker, and none when
nothing failed; the retry worker sleeps on each attempt and re-sends exactly
the still-pending items' ack ids, attempt by attempt, stopping once the
transport stops reporting transient failures (every attempt has a non-empty
pending set); each future resolved by an attempt belongs to an item pending
at that attempt, a future is resolved by a call only for an item the
transport classified success or permanent (never while it is still
transient, given per-item futures are distinct), and a resolution is
successful exactly when the transport classified the item success. -/
theorem claim_C6_retry_handoff [DecidableEq α]
    (classify : α → AckIdStatus) (ackReqs : List (AckRequest α))
    (modReqs : List (ModAckRequest α)) (script : List (α → AckIdStatus)) :
    (∀ r, r ∈ (sendUnary AckRequest.ack_id AckRequest.future classify
          ackReqs).requests_to_retry
        ↔ r ∈ ackReqs ∧ classify r.ack_id = .transient)
    ∧ (∀ s, Dispatcher.ackRetrySpawn classify ackReqs = some s →
        s.name = "Thread-RetryAcks" ∧ s.daemon = true ∧ s.handedItems ≠ []
        ∧ s.handedItems = (sendUnary AckRequest.ack_id AckRequest.future classify
            ackReqs).requests_to_retry)
    ∧ (Dispatcher.ackRetrySpawn classify ackReqs = none
        ↔ (sendUnary AckRequest.ack_id AckRequest.future classify
            ackReqs).requests_to_retry = [])
    ∧ (∀ r, r ∈ (sendUnary ModAckRequest.ack_id ModAckRequest.future classify
          modReqs).requests_to_retry
        ↔ r ∈ modReqs ∧ classify r.ack_id = .transient)
    ∧ (∀ s, Dispatcher.modackRetrySpawn classify modReqs = some s →
        s.name = "Thread-RetryModAcks" ∧ s.daemon = true ∧ s.handedItems ≠ []
        ∧ s.handedItems = (sendUnary ModAckRequest.ack_id ModAckRequest.future classify
            modReqs).requests_to_retry)
    ∧ ((Dispatcher._retry_acks script ackReqs).map RetryAttempt.sentAckIds
        = (retryPendings AckRequest.ack_id script ackReqs).map
            (List.map AckRequest.ack_id)
      ∧ (∀ p ∈ retryPendings AckRequest.ack_id script ackReqs, p ≠ [])
      ∧ (∀ a ∈ Dispatcher._retry_acks script ackReqs, a.slept = true)
      ∧ (∀ pr ∈ (Dispatcher._retry_acks script ackReqs).zip
            (retryPendings AckRequest.ack_id script ackReqs),
          ∀ fb ∈ pr.1.resolved, ∃ r ∈ pr.2, r.future = some fb.1))
    ∧ ((Dispatcher._retry_modacks script modReqs).map RetryAttempt.sentAckIds
        = (retryPendings ModAckRequest.ack_id script modReqs).map
            (List.map ModAckRequest.ack_id)
      ∧ (∀ a ∈ Dispatcher._retry_modacks script modReqs, a.slept = true))
    ∧ (∀ fb ∈ (sendUnary AckRequest.ack_id AckRequest.future classify
          ackReqs).resolved,
        ∃ r ∈ ackReqs, r.future = some fb.1 ∧ classify r.ack_id ≠ .transient
          ∧ (fb.2 = true ↔ classify r.ack_id = .success))
    ∧ ((∀ r1 ∈ ackReqs, ∀ r2 ∈ ackReqs, r1.future = r2.future → r1 = r2) →
        ∀ r ∈ ackReqs, classify r.ack_id = .transient →
          ∀ f, r.future = some f →
            ∀ b, (f, b) ∉ (sendUnary AckRequest.ack_id AckRequest.future classify
              ackReqs).resolved) := by
  refine ⟨?_, ?_, ?_, ?_, ?_, ⟨?_, ?_, ?_, ?_⟩, ⟨?_, ?_⟩, ?_, ?_⟩
  · exact sendUnary_retry_mem _ _ classify ackReqs
  · intro s hs
    unfold Dispatcher.ackRetrySpawn spawnFor at hs
    rcases hret : (sendUnary AckRequest.ack_id AckRequest.future classify
        ackReqs).requests_to_retry with _ | ⟨r, rest⟩ <;> rw [hret] at hs
    · simp at hs
    · simp only [Option.some.injEq] at hs
      subst hs
      simp
  · unfold Dispatcher.ackRetrySpawn spawnFor
    rcases hret : (sendUnary AckRequest.ack_id AckRequest.future classify
        ackReqs).requests_to_retry with _ | ⟨r, rest⟩ <;> simp
  · exact sendUnary_retry_mem _ _ classify modReqs
  · intro s hs
    unfold Dispatcher.modackRetrySpawn spawnFor at hs
    rcases hret : (sendUnary ModAckRequest.ack_id ModAckRequest.future classify
        modReqs).requests_to_retry with _ | ⟨r, rest⟩ <;> rw [hret] at hs
    · simp at hs
    · simp only [Option.some.injEq] at hs
      subst hs
      simp
  · exact retryLoop_map_sent _ _ script ackReqs
  · exact retryPendings_ne_nil _ script ackReqs
  · exact retryLoop_slept _ _ script ackReqs
  · exact retryLoop_zip_resolved _ _ script ackReqs
  · exact retryLoop_map_sent _ _ script modReqs
  · exact retryLoop_slept _ _ script modReqs
  · exact fun fb hfb => sendUnary_resolved_mem _ _ classify ackReqs fb hfb
  · intro hinj r hr htr f hf b
    exact sendUnary_transient_unresolved _ _ classify ackReqs hinj r hr htr f hf b

/-- C6 witness: the single-item scenario of test_retry_acks_in_new_thread —
the transport classifies the only ack id transient, so the item is handed to
a fresh daemon `Thread-RetryAcks` worker, and along a script in which the id
fails transiently twice and then succeeds the worker re-sends it on each of
the three attempts (test_retry_acks). -/
theorem claim_C6_witness :
    Dispatcher.ackRetrySpawn (fun _ => AckIdStatus.transient)
        ([⟨0, 0, some 20, "", some 5⟩] : List (AckRequest Nat))
      = some ⟨"Thread-RetryAcks", true, [⟨0, 0, some 20, "", some 5⟩]⟩
    ∧ (Dispatcher._retry_acks
        [fun _ => AckIdStatus.transient, fun _ => AckIdStatus.transient,
         fun _ => AckIdStatus.success]
        ([⟨0, 0, some 20, "", some 5⟩] : List (AckRequest Nat))).map
          RetryAttempt.sentAckIds = [[0], [0], [0]] := by
  constructor
  · decide
  · have h := (claim_C6_retry_handoff (fun _ => AckIdStatus.transient)
      ([⟨0, 0, some 20, "", some 5⟩] : List (AckRequest Nat))
      ([] : List (ModAckRequest Nat))
      [fun _ => AckIdStatus.transient, fun _ => AckIdStatus.transient,
       fun _ => AckIdStatus.success]).2.2.2.2.2.1.1
    rw [h]
    decide

/-! ## Helper lemmas about the leaser -/

theorem removeOne_ack_ids [DecidableEq α] (l : Leaser α) (r : DropRequest α) (a : α) :
    a ∈ (Leaser.removeOne l r).ack_ids ↔ a ∈ l.ack_ids ∧ a ≠ r.ack_id := by
  unfold Leaser.removeOne
  by_cases h : r.ack_id ∈ l.ack_ids
  · rw [if_pos h]
    simp only [Leaser.ack_ids, List.mem_map, List.mem_filter]
    constructor
    · rintro ⟨p, ⟨hp, hpne⟩, rfl⟩
      refine ⟨⟨p, hp, rfl⟩, by simpa using hpne⟩
    · rintro ⟨⟨p, hp, rfl⟩, hne⟩
      exact ⟨p, ⟨hp, by simpa using hne⟩, rfl⟩
  · rw [if_neg h]
    constructor
    · intro ha
      refine ⟨ha, ?_⟩
      rintro rfl
      exact h ha
    · exact fun hp => hp.1

theorem foldl_removeOne_ack_ids [DecidableEq α] :
    ∀ (items : List (DropRequest α)) (l : Leaser α) (a : α),
      a ∈ (items.foldl Leaser.removeOne l).ack_ids
        ↔ a ∈ l.ack_ids ∧ ∀ d ∈ items, a ≠ d.ack_id := by
  intro items
  induction items with
  | nil => intro l a; simp
  | cons r rest ih =>
    intro l a
    rw [List.foldl_cons, ih, removeOne_ack_ids]
    constructor
    · rintro ⟨⟨ha, hne⟩, hrest⟩
      refine ⟨ha, fun d hd => ?_⟩
      rcases List.mem_cons.mp hd with rfl | hd
      · exact hne
      · exact hrest d hd
    · rintro ⟨ha, hall⟩
      exact ⟨⟨ha, hall r (List.mem_cons_self r rest)⟩,
        fun d hd => hall d (List.mem_cons_of_mem _ hd)⟩

theorem remove_leased_messages [DecidableEq α] (items : List (DropRequest α)) (l : Leaser α) :
    (Leaser.remove items l).leased_messages
      = (items.foldl Leaser.removeOne l).leased_messages := by
  unfold Leaser.remove
  by_cases h : (items.foldl Leaser.removeOne l).bytes < 0 <;> simp [h]

theorem remove_ack_ids [DecidableEq α] (items : List (DropRequest α)) (l : Leaser α) (a : α) :
    a ∈ (Leaser.remove items l).ack_ids ↔ a ∈ l.ack_ids ∧ ∀ d ∈ items, a ≠ d.ack_id := by
  have : (Leaser.remove items l).ack_ids = (items.foldl Leaser.removeOne l).ack_ids := by
    unfold Leaser.ack_ids
    rw [remove_leased_messages]
  rw [this]
  exact foldl_removeOne_ack_ids items l a

theorem nodup_keys_eq_of_mem [DecidableEq α] :
    ∀ (L : List (α × LeasedMessage)), (L.map Prod.fst).Nodup →
      ∀ (a : α) (m m2 : LeasedMessage), (a, m) ∈ L → (a, m2) ∈ L → m = m2 := by
  intro L
  induction L with
  | nil => intro _ a m m2 h; simp at h
  | cons p rest ih =>
    obtain ⟨b, mb⟩ := p
    intro hnd a m m2 h1 h2
    simp only [List.map_cons, List.nodup_cons] at hnd
    rcases List.mem_cons.mp h1 with he1 | h1 <;> rcases List.mem_cons.mp h2 with he2 | h2
    · rw [Prod.mk.injEq] at he1 he2
      rw [he1.2, he2.2]
    · exfalso
      rw [Prod.mk.injEq] at he1
      exact hnd.1 (he1.1 ▸ List.mem_map_of_mem Prod.fst h2)
    · exfalso
      rw [Prod.mk.injEq] at he2
      exact hnd.1 (he2.1 ▸ List.mem_map_of_mem Prod.fst h1)
    · exact ih hnd.2 a m m2 h1 h2

theorem find?_key_unique [DecidableEq α] :
    ∀ (L : List (α × LeasedMessage)), (L.map Prod.fst).Nodup →
      ∀ (a : α) (m : LeasedMessage), (a, m) ∈ L →
        L.find? (fun p => decide (p.1 = a)) = some (a, m) := by
  intro L
  induction L with
  | nil => intro _ a m h; simp at h
  | cons p rest ih =>
    obtain ⟨b, mb⟩ := p
    intro hnd a m hmem
    simp only [List.map_cons, List.nodup_cons] at hnd
    by_cases hb : b = a
    · subst hb
      rw [List.find?_cons_of_pos _ (by simp)]
      rcases List.mem_cons.mp hmem with he | hmem
      · rw [Prod.mk.injEq] at he
        rw [he.2]
      · exact absurd (List.mem_map_of_mem Prod.fst hmem) hnd.1
    · rw [List.find?_cons_of_neg _ (by simp [hb])]
      rcases List.mem_cons.mp hmem with he | hmem
      · rw [Prod.mk.injEq] at he
        exact absurd he.1.symm hb
      · exact ih hnd.2 a m hmem

theorem count_dropReq_map_filter [DecidableEq α] :
    ∀ (L : List (α × LeasedMessage)), (L.map Prod.fst).Nodup →
      ∀ (pred : α × LeasedMessage → Bool) (a : α) (m : LeasedMessage),
        (a, m) ∈ L → pred (a, m) = true →
        ((L.filter pred).map fun p => DropRequest.mk p.1 p.2.size p.2.ordering_key).count
          (DropRequest.mk a m.size m.ordering_key) = 1 := by
  intro L
  induction L with
  | nil => intro _ pred a m h; simp at h
  | cons p rest ih =>
    obtain ⟨b, mb⟩ := p
    intro hnd pred a m hmem hpred
    simp only [List.map_cons, List.nodup_cons] at hnd
    have hrest_zero : a ∉ (rest.map Prod.fst) →
        ((rest.filter pred).map fun p => DropRequest.mk p.1 p.2.size p.2.ordering_key).count
          (DropRequest.mk a m.size m.ordering_key) = 0 := by
      intro hna
      rw [List.count_eq_zero]
      intro hc
      rcases List.mem_map.mp hc with ⟨q, hq, heq⟩
      rw [DropRequest.mk.injEq] at heq
      exact hna (heq.1 ▸ List.mem_map_of_mem Prod.fst (List.mem_of_mem_filter hq))
    rcases List.mem_cons.mp hmem with he | hmem
    · rw [Prod.mk.injEq] at he
      obtain ⟨rfl, rfl⟩ := he
      rw [List.filter_cons, if_pos hpred, List.map_cons, List.count_cons]
      simp [hrest_zero hnd.1]
    · have hba : b ≠ a := by
        intro h
        exact hnd.1 (h ▸ List.mem_map_of_mem Prod.fst hmem)
      have hih := ih hnd.2 pred a m hmem hpred
      rw [List.filter_cons]
      by_cases hp : pred (b, mb) = true
      · rw [if_pos hp, List.map_cons, List.count_cons, hih]
        have hne : (DropRequest.mk a m.size m.ordering_key
            ≠ DropRequest.mk b mb.size mb.ordering_key) := by
          rw [Ne, DropRequest.mk.injEq]
          intro h
          exact hba h.1.symm
        have hne2 : DropRequest.mk b mb.size mb.ordering_key
            ≠ DropRequest.mk a m.size m.ordering_key := fun h => hne h.symm
        simp [beq_iff_eq, hne2]
      · rw [if_neg hp]
        exact hih

theorem maintainTick_expiredDrops [DecidableEq α] (now mld dl : Int) (eod : Bool)
    (rej : List α) (l : Leaser α) :
    (Leaser.maintainTick now mld dl eod rej l).2.expiredDrops
      = (l.leased_messages.filter fun p => Leaser.isExpired now mld p.2).map
          (fun p => DropRequest.mk p.1 p.2.size p.2.ordering_key) := rfl

theorem maintainTick_rejectedDrops [DecidableEq α] (now mld dl : Int) (eod : Bool)
    (rej : List α) (l : Leaser α) :
    (Leaser.maintainTick now mld dl eod rej l).2.rejectedDrops
      = (if eod then
          rej.filterMap fun a =>
            ((l.leased_messages.filter fun p => !Leaser.isExpired now mld p.2).find?
              fun p => decide (p.1 = a)).map fun p =>
                DropRequest.mk a p.2.size p.2.ordering_key
          else []) := rfl

theorem maintainTick_fst [DecidableEq α] (now mld dl : Int) (eod : Bool)
    (rej : List α) (l : Leaser α) :
    (Leaser.maintainTick now mld dl eod rej l).1
      = Leaser.remove (Leaser.maintainTick now mld dl eod rej l).2.rejectedDrops
          (Leaser.remove (Leaser.maintainTick now mld dl eod rej l).2.expiredDrops l) := rfl

theorem maintainTick_live_in_batch [DecidableEq α] (now mld dl : Int) (eod : Bool)
    (rej : List α) (l : Leaser α) (a : α) (m : LeasedMessage)
    (hmem : (a, m) ∈ l.leased_messages)
    (hlv : Leaser.isExpired now mld m = false) :
    ∃ ids, (Leaser.maintainTick now mld dl eod rej l).2.modackBatch
      = some (ids, dl) ∧ a ∈ ids := by
  have hlive : (a, m) ∈ l.leased_messages.filter fun p => !Leaser.isExpired now mld p.2 := by
    rw [List.mem_filter]
    exact ⟨hmem, by simp [hlv]⟩
  have hbatch : (Leaser.maintainTick now mld dl eod rej l).2.modackBatch
      = match l.leased_messages.filter fun p => !Leaser.isExpired now mld p.2 with
        | [] => none
        | q :: qs => some ((q :: qs).map Prod.fst, dl) := rfl
  rcases hl : l.leased_messages.filter fun p => !Leaser.isExpired now mld p.2 with _ | ⟨p, rest⟩
  · rw [hl] at hlive
    simp at hlive
  · refine ⟨(p :: rest).map Prod.fst, ?_, ?_⟩
    · rw [hbatch, hl]
    · rw [hl] at hlive
      exact List.mem_map_of_mem Prod.fst hlive

theorem maintainTick_modackBatch [DecidableEq α] (now mld dl : Int) (eod : Bool)
    (rej : List α) (l : Leaser α) :
    (Leaser.maintainTick now mld dl eod rej l).2.modackBatch
      = match l.leased_messages.filter fun p => !Leaser.isExpired now mld p.2 with
        | [] => none
        | q :: qs => some ((q :: qs).map Prod.fst, dl) := rfl

/-! ## Claim C4 — lease maintenance drops expired leases exactly once -/

/-- C4: on a leaser maintenance tick, a lease record is expired exactly when
its expiry timer was started and `sent_time ≤ now − max_lease_duration`;
under distinct managed ack ids, every expired message is dropped exactly
once — one drop request carrying its ack id, stored byte size and ordering
key appears among the tick's drop requests — it is excluded from the modack
batch, and it is removed from the leaser; every live message's ack id is
sent in the single modack batch with the current target deadline. -/
theorem claim_C4_maintenance [DecidableEq α]
    (l : Leaser α) (now mld dl : Int) (eod : Bool) (rejected : List α)
    (hnd : (l.leased_messages.map Prod.fst).Nodup)
    (a : α) (m : LeasedMessage) (hmem : (a, m) ∈ l.leased_messages) :
    (Leaser.isExpired now mld m = true
      ↔ ∃ t, m.sent_time = some t ∧ t ≤ now - mld)
    ∧ (Leaser.isExpired now mld m = true →
        ((Leaser.maintainTick now mld dl eod rejected l).2.expiredDrops
          ++ (Leaser.maintainTick now mld dl eod rejected l).2.rejectedDrops).count
            (DropRequest.mk a m.size m.ordering_key) = 1
        ∧ (∀ ids d2,
            (Leaser.maintainTick now mld dl eod rejected l).2.modackBatch
              = some (ids, d2) → a ∉ ids)
        ∧ a ∉ (Leaser.maintainTick now mld dl eod rejected l).1.ack_ids)
    ∧ (Leaser.isExpired now mld m = false →
        ∃ ids, (Leaser.maintainTick now mld dl eod rejected l).2.modackBatch
          = some (ids, dl) ∧ a ∈ ids) := by
  have huniq : ∀ m2, (a, m2) ∈ l.leased_messages → m2 = m :=
    fun m2 h2 => nodup_keys_eq_of_mem _ hnd a m2 m h2 hmem
  refine ⟨?_, ?_, ?_⟩
  · cases hst : m.sent_time <;> simp [Leaser.isExpired, hst]
  · intro hexp
    have hdrmem : DropRequest.mk a m.size m.ordering_key
        ∈ (Leaser.maintainTick now mld dl eod rejected l).2.expiredDrops := by
      rw [maintainTick_expiredDrops]
      exact List.mem_map_of_mem _ (List.mem_filter.mpr ⟨hmem, hexp⟩)
    refine ⟨?_, ?_, ?_⟩
    · rw [List.count_append]
      have h1 : (Leaser.maintainTick now mld dl eod rejected l).2.expiredDrops.count
          (DropRequest.mk a m.size m.ordering_key) = 1 := by
        rw [maintainTick_expiredDrops]
        exact count_dropReq_map_filter _ hnd _ a m hmem hexp
      have h2 : (Leaser.maintainTick now mld dl eod rejected l).2.rejectedDrops.count
          (DropRequest.mk a m.size m.ordering_key) = 0 := by
        rw [List.count_eq_zero]
        intro hdr
        rw [maintainTick_rejectedDrops] at hdr
        cases eod with
        | false => simp at hdr
        | true =>
          rw [if_pos rfl] at hdr
          rcases List.mem_filterMap.mp hdr with ⟨b, _, hsome⟩
          rcases Option.map_eq_some'.mp hsome with ⟨p, hfind, heq⟩
          have hpb : p.1 = b := by
            have := List.find?_some hfind
            simpa using this
          rw [DropRequest.mk.injEq] at heq
          have hpmem := List.mem_of_find?_eq_some hfind
          rw [List.mem_filter] at hpmem
          have hpl : (a, p.2) ∈ l.leased_messages := by
            have hpe : (a, p.2) = p := by
              apply Prod.ext
              · exact (hpb.trans heq.1).symm
              · rfl
            rw [hpe]
            exact hpmem.1
          have hp2 : p.2 = m := huniq p.2 hpl
          have hlv := hpmem.2
          rw [hp2, hexp] at hlv
          simp at hlv
      rw [h1, h2]
    · intro ids d2 hb hain
      rw [maintainTick_modackBatch] at hb
      rcases hl : l.leased_messages.filter fun p => !Leaser.isExpired now mld p.2
        with _ | ⟨q, qs⟩ <;> rw [hl] at hb
      · simp at hb
      · simp only [Option.some.injEq, Prod.mk.injEq] at hb
        rw [← hb.1] at hain
        rcases List.mem_map.mp hain with ⟨p, hp, hpa⟩
        rw [← hl] at hp
        rw [List.mem_filter] at hp
        have hpl : (a, p.2) ∈ l.leased_messages := by
          have hpe : (a, p.2) = p := by
            apply Prod.ext
            · exact hpa.symm
            · rfl
          rw [hpe]
          exact hp.1
        have hp2 : p.2 = m := huniq p.2 hpl
        have hlv := hp.2
        rw [hp2, hexp] at hlv
        simp at hlv
    · intro hain
      rw [maintainTick_fst, remove_ack_ids, remove_ack_ids] at hain
      exact hain.1.2 _ hdrmem rfl
  · intro hlv
    exact maintainTick_live_in_batch now mld dl eod rejected l a m hmem hlv

/-- C4 witness: a leaser holding an expired lease (`ack1`, timer started at
time 0) and a live one (`ack2`, timer never started), maintained at time 31
with a 30-unit maximum lease duration: `ack1` is dropped exactly once and
`ack2` is modacked with deadline 10. -/
theorem claim_C4_witness :
    ((Leaser.maintainTick 31 30 10 false []
        (⟨[("ack1", ⟨some 0, 50, ""⟩), ("ack2", ⟨none, 50, ""⟩)], 100, []⟩
          : Leaser String)).2.expiredDrops
      ++ (Leaser.maintainTick 31 30 10 false []
        (⟨[("ack1", ⟨some 0, 50, ""⟩), ("ack2", ⟨none, 50, ""⟩)], 100, []⟩
          : Leaser String)).2.rejectedDrops).count
        (DropRequest.mk "ack1" 50 "") = 1
    ∧ ∃ ids, (Leaser.maintainTick 31 30 10 false []
        (⟨[("ack1", ⟨some 0, 50, ""⟩), ("ack2", ⟨none, 50, ""⟩)], 100, []⟩
          : Leaser String)).2.modackBatch = some (ids, 10) ∧ "ack2" ∈ ids := by
  constructor
  · exact ((claim_C4_maintenance
      (⟨[("ack1", ⟨some 0, 50, ""⟩), ("ack2", ⟨none, 50, ""⟩)], 100, []⟩ : Leaser String)
      31 30 10 false [] (by decide) "ack1" ⟨some 0, 50, ""⟩ (by decide)).2.1 (by decide)).1
  · exact (claim_C4_maintenance
      (⟨[("ack1", ⟨some 0, 50, ""⟩), ("ack2", ⟨none, 50, ""⟩)], 100, []⟩ : Leaser String)
      31 30 10 false [] (by decide) "ack2" ⟨none, 50, ""⟩ (by decide)).2.2 (by decide)

/-! ## Claim C5 — server-rejected ack ids are dropped only under
exactly-once delivery -/

/-- C5: when exactly-once delivery is enabled, every live managed ack id the
modack batch's response reports rejected is dropped — a drop request with
its ack id, stored byte size and ordering key is issued and the ack id is
removed from the leaser; when exactly-once delivery is disabled, no rejected
drop is issued and every live managed ack id keeps its lease. -/
theorem claim_C5_rejected_ack_ids [DecidableEq α]
    (l : Leaser α) (now mld dl : Int) (rejected : List α)
    (hnd : (l.leased_messages.map Prod.fst).Nodup) :
    (∀ a ∈ rejected, ∀ m, (a, m) ∈ l.leased_messages →
        Leaser.isExpired now mld m = false →
        DropRequest.mk a m.size m.ordering_key
            ∈ (Leaser.maintainTick now mld dl true rejected l).2.rejectedDrops
        ∧ a ∉ (Leaser.maintainTick now mld dl true rejected l).1.ack_ids)
    ∧ ((Leaser.maintainTick now mld dl false rejected l).2.rejectedDrops = []
      ∧ ∀ a ∈ rejected, ∀ m, (a, m) ∈ l.leased_messages →
          Leaser.isExpired now mld m = false →
          a ∈ (Leaser.maintainTick now mld dl false rejected l).1.ack_ids) := by
  have hlivend : ((l.leased_messages.filter fun p => !Leaser.isExpired now mld p.2).map
      Prod.fst).Nodup :=
    List.Nodup.sublist (List.Sublist.map Prod.fst (List.filter_sublist _)) hnd
  have hexp_ne : ∀ (eod : Bool) (a : α) (m : LeasedMessage), (a, m) ∈ l.leased_messages →
      Leaser.isExpired now mld m = false →
      ∀ d ∈ (Leaser.maintainTick now mld dl eod rejected l).2.expiredDrops,
        a ≠ d.ack_id := by
    intro eod a m hmem hlv d hd
    rw [maintainTick_expiredDrops] at hd
    rcases List.mem_map.mp hd with ⟨p, hp, rfl⟩
    rw [List.mem_filter] at hp
    intro hae
    have hpl : (a, p.2) ∈ l.leased_messages := by
      have hpe : (a, p.2) = p := by
        apply Prod.ext
        · exact hae
        · rfl
      rw [hpe]
      exact hp.1
    have hp2 : p.2 = m := nodup_keys_eq_of_mem _ hnd a p.2 m hpl hmem
    have hpexp := hp.2
    rw [hp2, hlv] at hpexp
    simp at hpexp
  have hrej_nil : (Leaser.maintainTick now mld dl false rejected l).2.rejectedDrops = [] := by
    rw [maintainTick_rejectedDrops]
    simp
  constructor
  · intro a ha m hmem hlv
    have hlive_mem : (a, m) ∈ l.leased_messages.filter
        fun p => !Leaser.isExpired now mld p.2 :=
      List.mem_filter.mpr ⟨hmem, by simp [hlv]⟩
    have hfind : (l.leased_messages.filter fun p => !Leaser.isExpired now mld p.2).find?
        (fun p => decide (p.1 = a)) = some (a, m) :=
      find?_key_unique _ hlivend a m hlive_mem
    have hdr : DropRequest.mk a m.size m.ordering_key
        ∈ (Leaser.maintainTick now mld dl true rejected l).2.rejectedDrops := by
      rw [maintainTick_rejectedDrops, if_pos rfl]
      refine List.mem_filterMap.mpr ⟨a, ha, ?_⟩
      rw [hfind]
      rfl
    refine ⟨hdr, ?_⟩
    intro hain
    rw [maintainTick_fst, remove_ack_ids, remove_ack_ids] at hain
    exact hain.2 _ hdr rfl
  · refine ⟨hrej_nil, ?_⟩
    intro a ha m hmem hlv
    rw [maintainTick_fst, remove_ack_ids, remove_ack_ids]
    refine ⟨⟨List.mem_map_of_mem Prod.fst hmem, hexp_ne false a m hmem hlv⟩, ?_⟩
    rw [hrej_nil]
    intro d hd
    simp at hd

/-- C5 witness: a leaser holding the live lease `my ack id` (byte size 50):
under exactly-once delivery a rejection of `my ack id` produces the drop
request `DropRequest("my ack id", 50, "")` and removes the lease, while
without exactly-once delivery no rejected drop is issued and the lease is
kept. -/
theorem claim_C5_witness :
    (DropRequest.mk "my ack id" 50 ""
        ∈ (Leaser.maintainTick 100 3600 10 true ["my ack id"]
          (⟨[("my ack id", ⟨none, 50, ""⟩)], 50, []⟩ : Leaser String)).2.rejectedDrops)
    ∧ (Leaser.maintainTick 100 3600 10 false ["my ack id"]
        (⟨[("my ack id", ⟨none, 50, ""⟩)], 50, []⟩ : Leaser String)).2.rejectedDrops = []
    ∧ "my ack id" ∈ (Leaser.maintainTick 100 3600 10 false ["my ack id"]
        (⟨[("my ack id", ⟨none, 50, ""⟩)], 50, []⟩ : Leaser String)).1.ack_ids := by
  have h := claim_C5_rejected_ack_ids
    (⟨[("my ack id", ⟨none, 50, ""⟩)], 50, []⟩ : Leaser String) 100 3600 10
    ["my ack id"] (by decide)
  exact ⟨(h.1 "my ack id" (by decide) ⟨none, 50, ""⟩ (by decide) rfl).1, h.2.1,
    h.2.2 "my ack id" (by decide) ⟨none, 50, ""⟩ (by decide) rfl⟩

/-! ## Claim C7 — Leaser.add is idempotent per ack id -/

/-- C7: adding a lease request whose ack id is already managed leaves the
leased-message map, message count, ack-id list and byte total unchanged and
only appends a debug log line; adding a fresh ack id appends it, increasing
the message count by one and the byte total by the request's byte size. -/
theorem claim_C7_add_idempotent [DecidableEq α] (l : Leaser α) (r : LeaseRequest α) :
    (r.ack_id ∈ l.ack_ids →
      (Leaser.add [r] l).leased_messages = l.leased_messages
      ∧ (Leaser.add [r] l).message_count = l.message_count
      ∧ (Leaser.add [r] l).ack_ids = l.ack_ids
      ∧ (Leaser.add [r] l).bytes = l.bytes
      ∧ (Leaser.add [r] l).log = l.log ++ ["already lease managed"])
    ∧ (r.ack_id ∉ l.ack_ids →
      (Leaser.add [r] l).message_count = l.message_count + 1
      ∧ (Leaser.add [r] l).bytes = l.bytes + r.byte_size
      ∧ (Leaser.add [r] l).ack_ids = l.ack_ids ++ [r.ack_id]) := by
  have hone : Leaser.add [r] l = Leaser.addOne l r := by
    unfold Leaser.add
    rw [List.foldl_cons, List.foldl_nil]
  rw [hone]
  unfold Leaser.addOne
  constructor
  · intro h
    rw [if_pos h]
    exact ⟨rfl, rfl, rfl, rfl, rfl⟩
  · intro h
    rw [if_neg h]
    refine ⟨?_, rfl, ?_⟩
    · unfold Leaser.message_count
      simp
    · unfold Leaser.ack_ids
      simp

/-- C7 witness: re-adding `ack1` to a leaser that already manages it leaves
the leased-message map unchanged, while the first add had increased the
message count from zero to one. -/
theorem claim_C7_witness :
    (Leaser.add [⟨"ack1", 50, ""⟩]
        (Leaser.add [⟨"ack1", 50, ""⟩] (Leaser.init : Leaser String))).leased_messages
      = (Leaser.add [⟨"ack1", 50, ""⟩] (Leaser.init : Leaser String)).leased_messages
    ∧ (Leaser.add [⟨"ack1", 50, ""⟩] (Leaser.init : Leaser String)).message_count
      = (Leaser.init : Leaser String).message_count + 1
    ∧ (Leaser.add [⟨"ack1", 50, ""⟩] (Leaser.init : Leaser String)).bytes
      = (Leaser.init : Leaser String).bytes + 50 := by
  refine ⟨?_, ?_, ?_⟩
  · exact ((claim_C7_add_idempotent
      (Leaser.add [⟨"ack1", 50, ""⟩] (Leaser.init : Leaser String))
      ⟨"ack1", 50, ""⟩).1 (by decide)).1
  · exact ((claim_C7_add_idempotent (Leaser.init : Leaser String)
      ⟨"ack1", 50, ""⟩).2 (by decide)).1
  · exact ((claim_C7_add_idempotent (Leaser.init : Leaser String)
      ⟨"ack1", 50, ""⟩).2 (by decide)).2.1

/-! ## Claim C8 — expiry needs a started timer -/

/-- C8: a leased message whose expiry timer was never started (`sent_time`
absent) is classified live on every maintenance tick no matter the current
time — it is never turned into an expired drop request and its ack id is
sent in the modack batch — and `start_lease_expiry_timer` with an ack id
that is not managed leaves the leaser unchanged. -/
theorem claim_C8_expiry_timer [DecidableEq α] (l : Leaser α)
    (now mld dl : Int) (eod : Bool) (rejected : List α)
    (a : α) (m : LeasedMessage) :
    ((l.leased_messages.map Prod.fst).Nodup → (a, m) ∈ l.leased_messages →
      m.sent_time = none →
      Leaser.isExpired now mld m = false
      ∧ (∀ d ∈ (Leaser.maintainTick now mld dl eod rejected l).2.expiredDrops,
          d.ack_id ≠ a)
      ∧ ∃ ids, (Leaser.maintainTick now mld dl eod rejected l).2.modackBatch
          = some (ids, dl) ∧ a ∈ ids)
    ∧ (∀ (b : α) (now2 : Int), b ∉ l.ack_ids →
        Leaser.start_lease_expiry_timer [b] now2 l = l) := by
  constructor
  · intro hnd hmem hst
    have hlv : Leaser.isExpired now mld m = false := by
      simp [Leaser.isExpired, hst]
    refine ⟨hlv, ?_, maintainTick_live_in_batch now mld dl eod rejected l a m hmem hlv⟩
    intro d hd
    rw [maintainTick_expiredDrops] at hd
    rcases List.mem_map.mp hd with ⟨p, hp, rfl⟩
    rw [List.mem_filter] at hp
    intro hae
    have hpl : (a, p.2) ∈ l.leased_messages := by
      have hpe : (a, p.2) = p := by
        apply Prod.ext
        · exact hae.symm
        · rfl
      rw [hpe]
      exact hp.1
    have hp2 : p.2 = m := nodup_keys_eq_of_mem _ hnd a p.2 m hpl hmem
    have hpexp := hp.2
    rw [hp2, hlv] at hpexp
    simp at hpexp
  · intro b now2 ha
    unfold Leaser.start_lease_expiry_timer
    have hmap : l.leased_messages.map (fun p =>
        if p.1 ∈ [b] then (p.1, { p.2 with sent_time := some now2 }) else p)
        = l.leased_messages := by
      have h1 : ∀ p ∈ l.leased_messages,
          (if p.1 ∈ [b] then (p.1, { p.2 with sent_time := some now2 }) else p) = p := by
        intro p hp
        have : p.1 ≠ b := by
          intro he
          exact ha (he ▸ List.mem_map_of_mem Prod.fst hp)
        simp [this]
      rw [List.map_congr_left h1]
      exact List.map_id' l.leased_messages
    rw [hmap]

/-- C8 witness: a lease whose timer was never started is modacked even at
time 1000 with a 30-unit maximum lease duration, and starting the expiry
timer for the unmanaged ack id `ackX` changes nothing. -/
theorem claim_C8_witness :
    Leaser.isExpired 1000 30 ⟨none, 50, ""⟩ = false
    ∧ (∃ ids, (Leaser.maintainTick 1000 30 10 false []
        (⟨[("ack2", ⟨none, 50, ""⟩)], 50, []⟩ : Leaser String)).2.modackBatch
          = some (ids, 10) ∧ "ack2" ∈ ids)
    ∧ Leaser.start_lease_expiry_timer ["ackX"] 5
        (⟨[("ack2", ⟨none, 50, ""⟩)], 50, []⟩ : Leaser String)
      = (⟨[("ack2", ⟨none, 50, ""⟩)], 50, []⟩ : Leaser String) := by
  have h := claim_C8_expiry_timer
    (⟨[("ack2", ⟨none, 50, ""⟩)], 50, []⟩ : Leaser String) 1000 30 10 false []
    "ack2" ⟨none, 50, ""⟩
  refine ⟨(h.1 (by decide) (by decide) rfl).1, (h.1 (by decide) (by decide) rfl).2.2,
    h.2 "ackX" 5 (by decide)⟩

/-! ## Claim C10 — the tracked byte total never goes negative -/

/-- C10: over every sequence of leaser operations starting from a
non-negative byte total, the tracked byte total stays non-negative; in
particular a remove whose subtractions would drive the total below zero
clamps it to zero and logs that the total was unexpectedly negative. -/
theorem claim_C10_bytes_nonneg [DecidableEq α] :
    (∀ (ops : List (LeaserOp α)) (l : Leaser α), 0 ≤ l.bytes → 0 ≤ (applyOps ops l).bytes)
    ∧ (∀ (items : List (DropRequest α)) (l : Leaser α),
        0 ≤ (Leaser.remove items l).bytes
        ∧ ((items.foldl Leaser.removeOne l).bytes < 0 →
            (Leaser.remove items l).bytes = 0
            ∧ "unexpectedly negative" ∈ (Leaser.remove items l).log)) := by
  have hremove : ∀ (items : List (DropRequest α)) (l : Leaser α),
      0 ≤ (Leaser.remove items l).bytes := by
    intro items l
    unfold Leaser.remove
    by_cases h : (items.foldl Leaser.removeOne l).bytes < 0
    · rw [if_pos h]
    · rw [if_neg h]
      omega
  have hadd : ∀ (items : List (LeaseRequest α)) (l : Leaser α),
      0 ≤ l.bytes → 0 ≤ (Leaser.add items l).bytes := by
    intro items
    induction items with
    | nil => intro l hl; exact hl
    | cons r rest ih =>
      intro l hl
      unfold Leaser.add at ih ⊢
      rw [List.foldl_cons]
      apply ih
      unfold Leaser.addOne
      by_cases h : r.ack_id ∈ l.ack_ids
      · rw [if_pos h]
        exact hl
      · rw [if_neg h]
        have : (0 : Int) ≤ r.byte_size := Int.natCast_nonneg _
        simp only
        omega
  constructor
  · intro ops
    induction ops with
    | nil => intro l hl; exact hl
    | cons op rest ih =>
      intro l hl
      unfold applyOps at ih ⊢
      rw [List.foldl_cons]
      apply ih
      cases op with
      | add items => exact hadd items l hl
      | remove items => exact hremove items l
      | startTimer ids now => exact hl
  · intro items l
    refine ⟨hremove items l, ?_⟩
    intro h
    unfold Leaser.remove
    rw [if_pos h]
    exact ⟨rfl, by simp⟩

/-- C10 witness: the scenario of test_remove_negative_bytes — add `ack1`
with 50 bytes, then remove it with a 75-byte drop request: the byte total is
clamped to zero (not −25) and the unexpectedly-negative message is
logged. -/
theorem claim_C10_witness :
    0 ≤ (applyOps [LeaserOp.add [⟨"ack1", 50, ""⟩], LeaserOp.remove [⟨"ack1", 75, ""⟩]]
        (Leaser.init : Leaser String)).bytes
    ∧ (Leaser.remove [⟨"ack1", 75, ""⟩]
        (Leaser.add [⟨"ack1", 50, ""⟩] (Leaser.init : Leaser String))).bytes = 0
    ∧ "unexpectedly negative" ∈ (Leaser.remove [⟨"ack1", 75, ""⟩]
        (Leaser.add [⟨"ack1", 50, ""⟩] (Leaser.init : Leaser String))).log := by
  have h2 := ((claim_C10_bytes_nonneg (α := String)).2 [⟨"ack1", 75, ""⟩]
    (Leaser.add [⟨"ack1", 50, ""⟩] (Leaser.init : Leaser String))).2 (by decide)
  exact ⟨(claim_C10_bytes_nonneg (α := String)).1 _ _ (by decide), h2.1, h2.2⟩

end PubSub
